import Mathlib

/-!
Verification of the readmerunner interactive execution core.

The Go sources (parser.go, runner.go, prompt.go, tags.go) are shallowly
embedded below.  Strings are modelled as Lean `String`s (lists of unicode
scalar values, matching Go's rune-based processing of scanner lines);
Go's unicode tables (`unicode.IsLetter`, `unicode.IsDigit`,
`strings.ToLower`) are modelled at ASCII scope, which covers every
document and anchor appearing in the specification.  Fallible Go
functions returning `(T, error)` become `Except String T`; functions
whose interesting observables are internal (captured output builders,
the prompt-response stream) return those observables explicitly.
-/

namespace ReadmeRunner

/-- Whitespace test used by `strings.TrimSpace` and `strings.Fields`
(ASCII part of `unicode.IsSpace`: space, tab, newline, vertical tab,
form feed, carriage return). -/
def isSpaceGo (c : Char) : Bool :=
  c = ' ' || c = '\t' || c = '\n' || c = '\x0b' || c = '\x0c' || c = '\r'

/-- Model of `strings.TrimSpace`: drop whitespace from both ends. -/
def trimSpaceGo (s : String) : String :=
  String.mk (((s.data.dropWhile isSpaceGo).reverse.dropWhile isSpaceGo).reverse)

/-- Model of `strings.HasPrefix p` applied to `s` (rune-level prefix test). -/
def hasPrefixGo (p s : String) : Bool :=
  decide (s.data.take p.data.length = p.data)

/-- One step of the right fold implementing `strings.Fields`:
a whitespace character closes the token accumulated to its right. -/
def fieldsStep (c : Char) : List Char × List (List Char) → List Char × List (List Char)
  | (cur, toks) =>
    if isSpaceGo c then ([], if cur.isEmpty then toks else cur :: toks)
    else (c :: cur, toks)

/-- Model of `strings.Fields`: split around runs of whitespace,
dropping empty tokens. -/
def goFieldsL (l : List Char) : List (List Char) :=
  let (cur, toks) := l.foldr fieldsStep ([], [])
  if cur.isEmpty then toks else cur :: toks

/-- `strings.Fields` on strings. -/
def goFields (s : String) : List String :=
  (goFieldsL s.data).map String.mk

/-- parseTags (tags.go): model of the anchored regular expression
match against the tags-directive grammar.  The pattern requires the
literal directive prefix, optional whitespace, an opening parenthesis,
at least one character other than a closing parenthesis, and a closing
parenthesis ending the line; on a match the captured content is
whitespace-split.  (Its leading and trailing whitespace groups do not
affect the whitespace split, so the capture is taken to be the whole
content between the parentheses.) -/
def parseTags (line : String) : Except String (List String) :=
  if line.data.take 8 = "[tags]:#".data then
    match (line.data.drop 8).dropWhile isSpaceGo with
    | c :: r =>
      if c = '(' then
        if r.getLast? = some ')' then
          if ¬ r.dropLast.isEmpty ∧ ')' ∉ r.dropLast then
            .ok ((goFieldsL r.dropLast).map String.mk)
          else .error "invalid tags directive format"
        else .error "invalid tags directive format"
      else .error "invalid tags directive format"
    | [] => .error "invalid tags directive format"
  else .error "invalid tags directive format"

/-- checkForAlwaysTag (tags.go): does the tag list contain `always`? -/
def checkForAlwaysTag (tags : List String) : Bool :=
  tags.any (fun tag => tag == "always")

/-- checkSectionTag (tags.go): an empty run list accepts everything;
otherwise some section tag must occur in the run list extended
with `always`. -/
def checkSectionTag (sectionTags runTags : List String) : Bool :=
  if runTags.isEmpty then true
  else
    let rt := runTags ++ ["always"]
    sectionTags.any (fun tag => rt.any (fun r => tag == r))

/-- Prompt descriptor (prompt.go). -/
structure Prompt where
  VarName : String
  Text : String
  Options : List String
  Default : String
  deriving Repr, DecidableEq

/-- Response-resolution step of processPrompt (prompt.go), for one
parsed prompt descriptor and the operator's raw response: an empty
response is replaced by a non-empty default; with a non-empty option
list the resolved response must be one of the options; on success the
variable name is bound to the resolved response.  (The regex parse
producing the descriptor is upstream of this claim and not modelled.) -/
def processPromptLine (pd : Prompt) (response : String) : Except String (String × String) :=
  let response := if response = "" ∧ pd.Default ≠ "" then pd.Default else response
  if pd.Options ≠ [] ∧ response ∉ pd.Options then
    .error ("invalid response for " ++ pd.VarName)
  else
    .ok (pd.VarName, response)

/-- Kind of a parsed section (parser.go `SectionType`). -/
inductive SectionType where
  | text
  | header
  | code
  | prompt
  deriving Repr, DecidableEq

/-- One parsed section (parser.go `Section`): a kind, the verbatim
lines belonging to it, and the tags in effect for it. -/
structure Section where
  type : SectionType
  Lines : List String
  Tags : List String
  deriving Repr, DecidableEq

/-- Drop one trailing carriage return (bufio.ScanLines dropCR). -/
def dropCR (l : List Char) : List Char :=
  if l.getLast? = some '\r' then l.dropLast else l

/-- One step of the right fold splitting a character list at newlines. -/
def splitNlStep (c : Char) : List Char × List (List Char) → List Char × List (List Char)
  | (cur, ls) => if c = '\n' then ([], cur :: ls) else (c :: cur, ls)

/-- Model of reading lines with bufio.Scanner (ScanLines): split at
newlines, do not produce a final empty token after a trailing newline,
yield nothing on empty input, and strip one trailing carriage return
per line. -/
def splitLinesGo (s : String) : List String :=
  if s.data.isEmpty then []
  else
    let (cur, ls) := s.data.foldr splitNlStep ([], [])
    let raw := cur :: ls
    let raw := if s.data.getLast? = some '\n' then raw.dropLast else raw
    raw.map (fun l => String.mk (dropCR l))

/-- getHeadingText (parser.go): strip the leading run of number signs
and surrounding whitespace; the header level is the length of that
leading run. -/
def getHeadingText (header : String) : String × Nat :=
  (trimSpaceGo (String.mk (header.data.dropWhile (fun c => c = '#'))),
   (header.data.takeWhile (fun c => c = '#')).length)

/-- ASCII model of `strings.ToLower` on one rune: shift an upper-case
letter down by 32, leave everything else unchanged. -/
def toLowerChar (c : Char) : Char :=
  if h : 65 ≤ c.toNat ∧ c.toNat ≤ 90 then
    Char.ofNatAux (c.toNat + 32) (Or.inl (by omega))
  else c

/-- ASCII model of `unicode.IsLetter`. -/
def isLetterChar (c : Char) : Bool :=
  decide (65 ≤ c.toNat ∧ c.toNat ≤ 90) || decide (97 ≤ c.toNat ∧ c.toNat ≤ 122)

/-- ASCII model of `unicode.IsDigit`. -/
def isDigitChar (c : Char) : Bool :=
  decide (48 ≤ c.toNat ∧ c.toNat ≤ 57)

/-- Character filter of normalizeAnchor: keep letters, digits, spaces
and hyphens. -/
def keepChar (c : Char) : Bool :=
  isLetterChar c || isDigitChar c || c = ' ' || c = '-'

/-- Space-to-hyphen replacement of normalizeAnchor. -/
def spaceToDash (c : Char) : Char :=
  if c = ' ' then '-' else c

/-- Model of the regular expression replacement collapsing each run of
hyphens to a single hyphen: of two adjacent hyphens, drop the first. -/
def collapseDashes : List Char → List Char
  | [] => []
  | [c] => [c]
  | a :: b :: rest =>
    if a = '-' ∧ b = '-' then collapseDashes (b :: rest)
    else a :: collapseDashes (b :: rest)

/-- normalizeAnchor (parser.go): lowercase, keep only letters, digits,
spaces and hyphens, replace spaces with hyphens, collapse hyphen runs. -/
def normalizeAnchor (header : String) : String :=
  String.mk (collapseDashes (((header.data.map toLowerChar).filter keepChar).map spaceToDash))

/-- State of the segmentation scan over the document lines
(parser.go parseSections, pass 1). -/
structure ScanState where
  sections : List Section
  current : Section
  pendingTags : List String
  inCodeBlock : Bool
  deriving Repr, DecidableEq

/-- Initial scan state: empty output, an empty text section, no pending
tags, outside any code fence. -/
def initScan : ScanState :=
  ⟨[], ⟨.text, [], []⟩, [], false⟩

/-- Flush helper: the Go code appends the current section to the output
only when it has at least one line. -/
def flushCurrent (sections : List Section) (current : Section) : List Section :=
  sections ++ (if current.Lines.isEmpty then [] else [current])

/-- One line of the segmentation scan (parser.go parseSections, pass 1,
loop body), translated branch for branch: tags directives are consumed
(extending the pending tags and retroactively re-tagging the current
section); inside a code fence lines accumulate until a closing fence
flushes the code section; an opening fence, a header, or a prompt
directive flushes the current section and opens the corresponding new
one, a header also resetting the pending tags; anything else appends to
the current section. -/
def scanLine (st : ScanState) (line : String) : ScanState :=
  let trimmed := trimSpaceGo line
  if hasPrefixGo "[tags]:#" trimmed then
    match parseTags trimmed with
    | .ok tags =>
      let pending := st.pendingTags ++ tags
      { st with pendingTags := pending, current := { st.current with Tags := pending } }
    | .error _ => st
  else if st.inCodeBlock then
    let cur := { st.current with Lines := st.current.Lines ++ [line] }
    if hasPrefixGo "```" trimmed then
      { st with sections := st.sections ++ [cur],
                current := ⟨.text, [], st.pendingTags⟩,
                inCodeBlock := false }
    else { st with current := cur }
  else if hasPrefixGo "```" trimmed then
    { st with sections := flushCurrent st.sections st.current,
              current := ⟨.code, [line], st.pendingTags⟩,
              inCodeBlock := true }
  else if hasPrefixGo "#" trimmed then
    { st with sections := flushCurrent st.sections st.current,
              current := ⟨.header, [line], st.pendingTags⟩,
              pendingTags := [] }
  else if hasPrefixGo "[prompt]:#" trimmed then
    { st with sections := flushCurrent st.sections st.current ++ [⟨.prompt, [line], st.pendingTags⟩],
              current := ⟨.text, [], []⟩ }
  else
    { st with current := { st.current with Lines := st.current.Lines ++ [line] } }

/-- Final scan state of pass 1 for a document. -/
def scanDoc (mdContent : String) : ScanState :=
  (splitLinesGo mdContent).foldl scanLine initScan

/-- The segmented (unfiltered) section sequence of a document:
run the scan and flush a non-empty final current section. -/
def segment (mdContent : String) : List Section :=
  let st := scanDoc mdContent
  flushCurrent st.sections st.current

/-- Whether the scan of the document ends outside a code fence
(every opened fence was closed). -/
def segEndsClosed (mdContent : String) : Bool :=
  !(scanDoc mdContent).inCodeBlock

/-- The normalized anchor of a section's first line, read as a heading. -/
def sectionAnchor (sec : Section) : String :=
  normalizeAnchor (getHeadingText (sec.Lines.headD "")).1

/-- Update of the `started` flag for one section: a header whose anchor
equals the requested start flips a not-yet-started state. -/
def filterStarted (start : String) (started : Bool) (sec : Section) : Bool :=
  if ¬started ∧ sec.type = .header ∧ sectionAnchor sec = start then true else started

/-- Whether one section is kept, given the (already updated) `started`
flag: `always`-tagged sections always, otherwise only once started and,
when tags were requested, only on a tag intersection. -/
def filterKeep (userTags : List String) (started : Bool) (sec : Section) : Bool :=
  if checkForAlwaysTag sec.Tags then true
  else if started then
    if userTags.isEmpty then true else checkSectionTag sec.Tags userTags
  else false

/-- Filtering pass of parseSections (pass 2), written as structural
recursion producing the kept subsequence together with the final value
of the `started` flag. -/
def filterGo (start : String) (userTags : List String) : Bool → List Section → List Section × Bool
  | started, [] => ([], started)
  | started, sec :: rest =>
    let started' := filterStarted start started sec
    let res := filterGo start userTags started' rest
    ((if filterKeep userTags started' sec then sec :: res.1 else res.1), res.2)

/-- parseSections (parser.go): segmentation followed by filtering; when
the `started` flag never becomes true the function returns the empty
sequence (the Go code returns nil).  The Go function has no error
return value. -/
def parseSections (mdContent : String) (start : String) (userTags : List String) : List Section :=
  let secs := segment mdContent
  let res := filterGo start userTags (start == "") secs
  if res.2 then res.1 else []

/-- A fence-delimiter line: the trimmed content starts with three
backticks (spec section 6, "Code fence"). -/
def isFenceLine (s : String) : Bool :=
  hasPrefixGo "```" (trimSpaceGo s)

/-- A section satisfies the code-fence invariant when, if it is a code
section, its first and last lines are fence delimiters. -/
def codeFenced (sec : Section) : Prop :=
  sec.type = .code →
    isFenceLine (sec.Lines.headD "") = true ∧ isFenceLine (sec.Lines.getLastD "") = true

/-- Invariant carried by the segmentation scan: flushed code sections
are fully fenced, the in-fence current section is a code section whose
first line is a fence, and outside a fence the current section is never
a code section. -/
def scanInv (st : ScanState) : Prop :=
  (∀ sec ∈ st.sections, codeFenced sec)
  ∧ (st.inCodeBlock = true →
      st.current.type = .code ∧ st.current.Lines ≠ [] ∧
        isFenceLine (st.current.Lines.headD "") = true)
  ∧ (st.inCodeBlock = false → st.current.type ≠ .code)

/-- The spec's section 8.7 example document, verbatim. -/
def spec87Doc : String :=
  "# Title\n[tags]:# (always)\nsome content\n\n## Section One\n[tags]:# (foo bar)\n```bash\necho \"Hello, world!\"\n```\n### Subsection\n[tags]:# (bar)\n[prompt]:# (name \"What is your name?\")"

/-- No two adjacent hyphens. -/
def noDoubleDash : List Char → Bool
  | a :: b :: rest => !(a = '-' && b = '-') && noDoubleDash (b :: rest)
  | _ => true

/-- Normalization applied by processCodeBlock to every operator
response: `strings.ToLower(strings.TrimSpace(response))`. -/
def lowerTrim (s : String) : String :=
  String.mk ((trimSpaceGo s).data.map toLowerChar)

/-- What printLines writes for a list of lines: each line followed by a
newline. -/
def linesStr (lines : List String) : String :=
  String.join (lines.map (fun l => l ++ "\n"))

/-- Result of the processCodeBlock model: everything written to the
output sink, the remaining operator responses, the returned error and
the returned exit flag. -/
structure PCBResult where
  out : String
  resps : List String
  err : Option String
  exit : Bool
  deriving Repr, DecidableEq

/-- Model of the Go pattern `err, exit := processCodeBlock(...); if err
!= nil { return err, exit }` followed by falling through to `return
nil, false`: an error propagates together with the exit flag, but a
clean inner exit is discarded. -/
def swallowRes (r : PCBResult) : PCBResult :=
  if r.err.isSome then r else ⟨r.out, r.resps, none, false⟩

/-- processCodeBlock (parser.go), fuel-indexed.  The prompt function is
modelled as a finite response stream popped one response per question
(an exhausted stream answers the empty string, as the tests' fakePrompt
does); the runner resolved from the fence language is modelled by
`hasRunner` together with the output/error every run produces.  A code
block of at most two lines is printed verbatim and returns at once.
With no runner, one response is consumed (press Enter) and the block is
skipped.  Otherwise an empty choice is answered from the stream; `r`
runs (writing the error annotation, the `(no output)` placeholder for
empty output, and the output line), then asks rerun/continue/exit,
recursing with choice `r` both for `r` and for any unrecognized answer;
`x` exits; `s` or empty continues; any other initial choice re-asks by
recursing with the empty choice.  Both recursion sites discard a clean
inner exit (`swallowRes`).  The fuel passed by the wrapper exceeds the
response-stream length, which bounds the recursion depth, so the
sentinel fuel-0 branch is unreachable. -/
def pcbFuel (hasRunner : Bool) (runOut : String) (runErr : Option String)
    (code : List String) : Nat → String → String → List String → PCBResult
  | 0, _, out, resps => ⟨out, resps, none, false⟩
  | fuel+1, choice, out, resps =>
    if code.length ≤ 2 then ⟨out ++ linesStr code, resps, none, false⟩
    else if choice = "" ∧ ¬ hasRunner then ⟨out, resps.tail, none, false⟩
    else
      let ch := if choice = "" then lowerTrim (resps.headD "") else choice
      let rs := if choice = "" then resps.tail else resps
      if ch = "r" then
        let out1 := out ++ (match runErr with | some e => "\n> Error: " ++ e | none => "")
            ++ "\n> Output: " ++ (if runOut = "" then "(no output)\n" else runOut)
        let next := lowerTrim (rs.headD "")
        let rs1 := rs.tail
        if next = "x" then ⟨out1, rs1, none, true⟩
        else if next = "s" ∨ next = "" then ⟨out1, rs1, none, false⟩
        else swallowRes (pcbFuel hasRunner runOut runErr code fuel "r" out1 rs1)
      else if ch = "x" then ⟨out, rs, none, true⟩
      else if ch = "s" ∨ ch = "" then ⟨out, rs, none, false⟩
      else swallowRes (pcbFuel hasRunner runOut runErr code fuel "" out rs)

/-- processCodeBlock with adequate fuel for the response stream. -/
def processCodeBlock (hasRunner : Bool) (runOut : String) (runErr : Option String)
    (code : List String) (choice : String) (out : String) (resps : List String) : PCBResult :=
  pcbFuel hasRunner runOut runErr code (resps.length + 2) choice out resps

/-- Output-completion marker written after every snippet
(runner.go). -/
def snippetMarker : String := "__END_OF_SNIPPET__"

/-- Exit-status marker of the verify runner (runner.go). -/
def exitCodeMarker : String := "__EXIT_CODE__"

/-- The marker-bounded read loop shared by the runners: consume stream
lines until the first marker line, returning the lines before it and
the lines after it. -/
def verifyLoop : List String → List String × List String
  | [] => ([], [])
  | l :: rest =>
    if l = snippetMarker then ([], rest)
    else
      let r := verifyLoop rest
      (l :: r.1, r.2)

/-- Digit-string value for the Atoi model. -/
def digitsToNat (l : List Char) : Option Nat :=
  if l.isEmpty then none
  else if l.all isDigitChar then
    some (l.foldl (fun acc c => acc * 10 + (c.toNat - 48)) 0)
  else none

/-- Model of strconv.Atoi: an optional sign followed by at least one
digit (the int range bound is not modelled; the statuses at issue are
small). -/
def goAtoi (s : String) : Option Int :=
  match s.data with
  | '+' :: ds => (digitsToNat ds).map (fun n => (n : Int))
  | '-' :: ds => (digitsToNat ds).map (fun n => -(n : Int))
  | ds => (digitsToNat ds).map (fun n => (n : Int))

/-- The verify runner's success result string. -/
def successResult : String := "\x1b[32mSuccess\x1b[0m\n"

/-- The verify runner's failure result string embedding the numeric
status. -/
def failureResult (n : Int) : String :=
  "\x1b[31mFailure [command exited with status " ++ toString n ++ "]\x1b[0m\n"

/-- VerifyRunner.Run (runner.go), modelled over the stream of lines the
scanner delivers after the wrapped snippet is written: lines up to the
first marker accumulate in the output builder (exposed as the first
component; the Go code accumulates but does not return it), the next
line must be the exit-code marker followed by an integer — a malformed
or mismatched line is an error, status zero yields the Success string
and any other status yields the Failure string embedding it.
`verifyParse` is the status-line step. -/
def verifyParse (exitLine : String) : Except String String :=
  if (goFields exitLine).length ≠ 2 ∨ (goFields exitLine).headD "" ≠ exitCodeMarker then
    .error ("failed to parse exit code, got: " ++ exitLine)
  else
    match goAtoi ((goFields exitLine).getD 1 "") with
    | none => .error ("invalid exit code: " ++ ((goFields exitLine).getD 1 ""))
    | some exitCode =>
      if exitCode ≠ 0 then .ok (failureResult exitCode)
      else .ok successResult

/-- The full VerifyRunner.Run stream processing: captured output from
the marker-bounded loop, then the status parse on the following
line. -/
def verifyRun (stream : List String) : String × Except String String :=
  (String.join ((verifyLoop stream).1.map (fun l => l ++ "\n")),
   verifyParse ((verifyLoop stream).2.headD ""))

/-- Specification-side reading of one status line: it must consist of
exactly the exit-code marker token and one integer. -/
def statusOfLine (l : String) : Option Int :=
  match goFields l with
  | [m, tok] => if m = exitCodeMarker then goAtoi tok else none
  | _ => none

/-- Specification-side status of a stream: read the line following the
first marker. -/
def verifyStatusSpec (stream : List String) : Option Int :=
  statusOfLine (((stream.dropWhile (fun l => !(l == snippetMarker))).drop 1).headD "")

/-- The default-substitution step of processPrompt: an empty response
is replaced by the default when one exists. -/
def resolveResponse (pd : Prompt) (response : String) : String :=
  if response = "" ∧ pd.Default ≠ "" then pd.Default else response

theorem scanInv_init : scanInv initScan := by
  refine ⟨?_, ?_, ?_⟩ <;> simp [initScan, codeFenced]

theorem scanInv_step (st : ScanState) (line : String) (h : scanInv st) :
    scanInv (scanLine st line) := by
  obtain ⟨h1, h2, h3⟩ := h
  unfold scanLine
  by_cases ht : hasPrefixGo "[tags]:#" (trimSpaceGo line) = true
  · simp only [ht, if_pos]
    cases hp : parseTags (trimSpaceGo line) with
    | ok tags =>
      refine ⟨h1, ?_, ?_⟩
      · intro hin
        obtain ⟨a, b, c⟩ := h2 hin
        exact ⟨a, b, c⟩
      · intro hout
        exact h3 hout
    | error e => exact ⟨h1, h2, h3⟩
  · simp only [ht, if_neg, Bool.not_eq_true]
    by_cases hic : st.inCodeBlock = true
    · obtain ⟨hty, hne, hhd⟩ := h2 hic
      by_cases hf : hasPrefixGo "```" (trimSpaceGo line) = true
      · simp only [hic, hf, if_pos, if_true]
        refine ⟨?_, by simp, by simp⟩
        intro sec hsec
        rw [List.mem_append] at hsec
        rcases hsec with hsec | hsec
        · exact h1 sec hsec
        · rw [List.mem_singleton] at hsec
          subst hsec
          intro _
          constructor
          · simpa [List.headD_eq_head?, List.head?_append_of_ne_nil _ hne] using hhd
          · simpa [List.getLastD_eq_getLast?, List.getLast?_append] using hf
      · simp only [hic, hf, if_pos, if_neg, if_false, Bool.not_eq_true]
        refine ⟨h1, ?_, by simp⟩
        intro _
        refine ⟨hty, by simp, ?_⟩
        simpa [List.headD_eq_head?, List.head?_append_of_ne_nil _ hne] using hhd
    · rw [Bool.not_eq_true] at hic
      have hcur := h3 hic
      by_cases hf : hasPrefixGo "```" (trimSpaceGo line) = true
      · simp only [hic, hf, if_pos, if_neg, Bool.false_eq_true, if_false]
        refine ⟨?_, ?_, by simp⟩
        · intro sec hsec
          unfold flushCurrent at hsec
          rw [List.mem_append] at hsec
          rcases hsec with hsec | hsec
          · exact h1 sec hsec
          · split at hsec
            · simp at hsec
            · rw [List.mem_singleton] at hsec
              subst hsec
              intro hcode
              exact absurd hcode hcur
        · intro _
          exact ⟨rfl, by simp, by simpa using hf⟩
      · by_cases hh : hasPrefixGo "#" (trimSpaceGo line) = true
        · simp only [hic, hf, hh, if_pos, if_neg, Bool.false_eq_true, if_false]
          refine ⟨?_, by simp, by simp⟩
          intro sec hsec
          unfold flushCurrent at hsec
          rw [List.mem_append] at hsec
          rcases hsec with hsec | hsec
          · exact h1 sec hsec
          · split at hsec
            · simp at hsec
            · rw [List.mem_singleton] at hsec
              subst hsec
              intro hcode
              exact absurd hcode hcur
        · by_cases hq : hasPrefixGo "[prompt]:#" (trimSpaceGo line) = true
          · simp only [hic, hf, hh, hq, if_pos, if_neg, Bool.false_eq_true, if_false]
            refine ⟨?_, by simp, by simp⟩
            intro sec hsec
            rw [List.mem_append] at hsec
            rcases hsec with hsec | hsec
            · unfold flushCurrent at hsec
              rw [List.mem_append] at hsec
              rcases hsec with hsec | hsec
              · exact h1 sec hsec
              · split at hsec
                · simp at hsec
                · rw [List.mem_singleton] at hsec
                  subst hsec
                  intro hcode
                  exact absurd hcode hcur
            · rw [List.mem_singleton] at hsec
              subst hsec
              intro hcode
              simp [Section.type] at hcode
          · simp only [hic, hf, hh, hq, if_neg, Bool.false_eq_true, if_false]
            exact ⟨h1, by simp, fun _ => hcur⟩

theorem scanInv_foldl (lines : List String) (st : ScanState) (h : scanInv st) :
    scanInv (lines.foldl scanLine st) := by
  induction lines generalizing st with
  | nil => exact h
  | cons l rest ih => exact ih _ (scanInv_step st l h)

/-- The `started` update, expressed as a disjunction. -/
theorem filterStarted_eq (start : String) (started : Bool) (sec : Section) :
    filterStarted start started sec =
      (started || (decide (sec.type = .header) && (sectionAnchor sec == start))) := by
  unfold filterStarted
  cases started with
  | true => simp
  | false =>
    by_cases hh : sec.type = SectionType.header
    · by_cases ha : sectionAnchor sec = start
      · simp [hh, ha]
      · simp [hh, ha]
    · simp [hh]

/-- Every element of the filtered output occurs among the input
sections. -/
theorem filterGo_mem (start : String) (userTags : List String) (started : Bool)
    (secs : List Section) (x : Section)
    (hx : x ∈ (filterGo start userTags started secs).1) : x ∈ secs := by
  induction secs generalizing started with
  | nil => simp [filterGo] at hx
  | cons sec rest ih =>
    rw [filterGo] at hx
    simp only at hx
    by_cases hk : filterKeep userTags (filterStarted start started sec) sec = true
    · rw [if_pos hk] at hx
      rcases List.mem_cons.mp hx with h | h
      · exact h ▸ List.mem_cons_self _ _
      · exact List.mem_cons_of_mem _ (ih _ h)
    · rw [if_neg hk] at hx
      exact List.mem_cons_of_mem _ (ih _ hx)

/-- The final `started` flag of the filtering pass: true exactly when
it was already true or some header in the list matches the requested
anchor. -/
theorem filterGo_snd (start : String) (userTags : List String) (started : Bool)
    (secs : List Section) :
    (filterGo start userTags started secs).2 =
      (started || secs.any (fun s => decide (s.type = .header) && (sectionAnchor s == start))) := by
  induction secs generalizing started with
  | nil => simp [filterGo]
  | cons sec rest ih =>
    rw [filterGo]
    simp only [List.any_cons]
    rw [ih, filterStarted_eq]
    cases started <;> cases hh : (decide (sec.type = SectionType.header) &&
      (sectionAnchor sec == start)) <;> simp [hh]

/-- An `always`-tagged input section is always kept by the filtering
pass. -/
theorem filterGo_always (start : String) (userTags : List String) (started : Bool)
    (secs : List Section) (sec : Section) (hmem : sec ∈ secs)
    (halways : checkForAlwaysTag sec.Tags = true) :
    sec ∈ (filterGo start userTags started secs).1 := by
  induction secs generalizing started with
  | nil => cases hmem
  | cons hd rest ih =>
    rw [filterGo]
    simp only
    rcases List.mem_cons.mp hmem with h | h
    · subst h
      simp [filterKeep, halways]
    · have htail := ih (filterStarted start started hd) h
      by_cases hk : filterKeep userTags (filterStarted start started hd) hd = true
      · rw [if_pos hk]
        exact List.mem_cons_of_mem _ htail
      · rw [if_neg hk]
        exact htail

/-- C1 counterexample: a document whose only section is tagged `always`,
parsed with a start anchor matching no heading, yields the empty
sequence — the always-tagged section is not present in the output. -/
theorem claim1_counterexample :
    (⟨.header, ["# Title", "hi"], ["always"]⟩ : Section) ∈
        segment "# Title\n[tags]:# (always)\nhi"
    ∧ checkForAlwaysTag ["always"] = true
    ∧ parseSections "# Title\n[tags]:# (always)\nhi" "nope" [] = [] := by
  refine ⟨?_, rfl, rfl⟩
  have h : segment "# Title\n[tags]:# (always)\nhi" =
      [⟨.header, ["# Title", "hi"], ["always"]⟩] := rfl
  rw [h]
  exact List.mem_singleton.mpr rfl

/-- C1 (amended): for every document, every requested tag list and
every start anchor that is empty or matched by some heading of the
document, every segmented section whose tag list contains `always` is
present in the sequence returned by parseSections.  (When a non-empty
start anchor matches no heading, parseSections returns the empty
sequence, omitting even always-tagged sections.) -/
theorem claim1_always_universal (md start : String) (userTags : List String) (sec : Section)
    (hmem : sec ∈ segment md) (halways : checkForAlwaysTag sec.Tags = true)
    (hstart : start = "" ∨
      ∃ sec' ∈ segment md, sec'.type = .header ∧ sectionAnchor sec' = start) :
    sec ∈ parseSections md start userTags := by
  unfold parseSections
  simp only
  have hfin : (filterGo start userTags (start == "") (segment md)).2 = true := by
    rw [filterGo_snd]
    rcases hstart with h | ⟨s, hs, ht, ha⟩
    · subst h
      simp
    · simp only [Bool.or_eq_true, List.any_eq_true]
      right
      exact ⟨s, hs, by simp [ht, ha]⟩
  rw [if_pos hfin]
  exact filterGo_always start userTags (start == "") (segment md) sec hmem halways

/-- Witness for C1 (amended) at a concrete document and matching
anchor. -/
theorem claim1_always_universal_witness :
    (⟨.header, ["# Title", "hi"], ["always"]⟩ : Section) ∈
      parseSections "# Title\n[tags]:# (always)\nhi" "title" ["zzz"] := by
  apply claim1_always_universal
  · have h : segment "# Title\n[tags]:# (always)\nhi" =
        [⟨.header, ["# Title", "hi"], ["always"]⟩] := rfl
    rw [h]
    exact List.mem_singleton.mpr rfl
  · rfl
  · right
    refine ⟨⟨.header, ["# Title", "hi"], ["always"]⟩, ?_, rfl, rfl⟩
    have h : segment "# Title\n[tags]:# (always)\nhi" =
        [⟨.header, ["# Title", "hi"], ["always"]⟩] := rfl
    rw [h]
    exact List.mem_singleton.mpr rfl

/-- C2: when the requested start anchor is non-empty and no header of
the document normalizes to it, parseSections yields the empty sequence
(the Go function has no error return channel at all). -/
theorem claim2_nonmatching_anchor_empty (md start : String) (userTags : List String)
    (hne : start ≠ "")
    (hnm : ∀ sec ∈ segment md, sec.type = .header → sectionAnchor sec ≠ start) :
    parseSections md start userTags = [] := by
  unfold parseSections
  simp only
  have h0 : (start == "") = false := by
    simpa using hne
  have hfin : (filterGo start userTags (start == "") (segment md)).2 = false := by
    rw [filterGo_snd, h0]
    simp only [Bool.false_or, List.any_eq_false]
    intro s hs
    by_cases hh : s.type = SectionType.header
    · simp [hh, hnm s hs hh]
    · simp [hh]
  rw [if_neg]
  rw [hfin]
  simp

/-- Witness for C2 at a concrete document with no matching heading. -/
theorem claim2_nonmatching_anchor_empty_witness :
    parseSections "# Intro\nhello" "nope" ["a"] = [] := by
  apply claim2_nonmatching_anchor_empty
  · decide
  · decide

/-- C4 counterexample: a document ending inside an unterminated code
fence produces a code section whose last line is not a fence
delimiter. -/
theorem claim4_counterexample :
    parseSections "```bash\necho hi" "" [] = [⟨.code, ["```bash", "echo hi"], []⟩]
    ∧ isFenceLine "echo hi" = false := by
  exact ⟨rfl, rfl⟩

/-- C4 (amended): every code section produced by parseSections has a
fence delimiter as its first line, and also as its last line whenever
the document's scan ends outside a code fence (every opened fence was
closed); only a final unterminated fence can leave a code section
without a closing delimiter. -/
theorem claim4_code_fence_invariant (md start : String) (userTags : List String) (sec : Section)
    (hmem : sec ∈ parseSections md start userTags) (hcode : sec.type = .code) :
    isFenceLine (sec.Lines.headD "") = true
    ∧ (segEndsClosed md = true → isFenceLine (sec.Lines.getLastD "") = true) := by
  have hseg : sec ∈ segment md := by
    unfold parseSections at hmem
    simp only at hmem
    by_cases hf : (filterGo start userTags (start == "") (segment md)).2 = true
    · rw [if_pos hf] at hmem
      exact filterGo_mem _ _ _ _ _ hmem
    · rw [if_neg hf] at hmem
      cases hmem
  have hinv : scanInv (scanDoc md) := scanInv_foldl (splitLinesGo md) initScan scanInv_init
  obtain ⟨h1, h2, h3⟩ := hinv
  unfold segment flushCurrent at hseg
  rw [List.mem_append] at hseg
  rcases hseg with hs | hs
  · have hc := h1 sec hs hcode
    exact ⟨hc.1, fun _ => hc.2⟩
  · have hcur : sec = (scanDoc md).current := by
      split at hs
      · cases hs
      · exact List.mem_singleton.mp hs
    cases hic : (scanDoc md).inCodeBlock with
    | false =>
      exact absurd (hcur ▸ hcode) (h3 hic)
    | true =>
      obtain ⟨_, _, hhd⟩ := h2 hic
      refine ⟨hcur ▸ hhd, ?_⟩
      intro hclosed
      unfold segEndsClosed at hclosed
      rw [hic] at hclosed
      simp at hclosed

/-- Witness for C4 (amended) at a concrete closed code fence. -/
theorem claim4_code_fence_invariant_witness :
    isFenceLine ((⟨.code, ["```bash", "echo ok", "```"], []⟩ : Section).Lines.headD "") = true
    ∧ (segEndsClosed "```bash\necho ok\n```" = true →
        isFenceLine ((⟨.code, ["```bash", "echo ok", "```"], []⟩ : Section).Lines.getLastD "") = true) := by
  apply claim4_code_fence_invariant "```bash\necho ok\n```" "" []
  · have h : parseSections "```bash\necho ok\n```" "" [] =
        [⟨.code, ["```bash", "echo ok", "```"], []⟩] := rfl
    rw [h]
    exact List.mem_singleton.mpr rfl
  · rfl

set_option maxRecDepth 4096 in
/-- C5 counterexample: parsing the spec's section 8.7 document with an
empty start anchor and no requested tags yields five sections, not
six. -/
theorem claim5_counterexample :
    (parseSections spec87Doc "" []).length = 5
    ∧ (parseSections spec87Doc "" []).length ≠ 6 := by
  refine ⟨?_, ?_⟩ <;> decide

set_option maxRecDepth 4096 in
/-- C5 (amended): parsing the section 8.7 document with an empty start
anchor yields exactly five sections — Title header (tagged always),
Section One header, the bash code block, the Subsection header and its
prompt; there is no empty text section because no line follows the
closing fence before the Subsection heading.  Parsing with
start="subsection" yields the always-tagged title header plus the
Subsection header and its prompt. -/
theorem claim5_example_scenario :
    parseSections spec87Doc "" [] =
      [⟨.header, ["# Title", "some content", ""], ["always"]⟩,
       ⟨.header, ["## Section One"], ["foo", "bar"]⟩,
       ⟨.code, ["```bash", "echo \"Hello, world!\"", "```"], ["foo", "bar"]⟩,
       ⟨.header, ["### Subsection"], ["bar"]⟩,
       ⟨.prompt, ["[prompt]:# (name \"What is your name?\")"], ["bar"]⟩]
    ∧ parseSections spec87Doc "subsection" [] =
      [⟨.header, ["# Title", "some content", ""], ["always"]⟩,
       ⟨.header, ["### Subsection"], ["bar"]⟩,
       ⟨.prompt, ["[prompt]:# (name \"What is your name?\")"], ["bar"]⟩] := by
  refine ⟨?_, ?_⟩ <;> decide

theorem toLowerChar_fix (c : Char) (h : ¬ (65 ≤ c.toNat ∧ c.toNat ≤ 90)) :
    toLowerChar c = c := by
  unfold toLowerChar
  exact dif_neg h

theorem toLowerChar_not_upper (c : Char) :
    ¬ (65 ≤ (toLowerChar c).toNat ∧ (toLowerChar c).toNat ≤ 90) := by
  by_cases h : 65 ≤ c.toNat ∧ c.toNat ≤ 90
  · have hn : (toLowerChar c).toNat = c.toNat + 32 := by
      unfold toLowerChar
      rw [dif_pos h]
      rfl
    omega
  · rw [toLowerChar_fix c h]
    exact h

theorem toLowerChar_idem (c : Char) : toLowerChar (toLowerChar c) = toLowerChar c :=
  toLowerChar_fix _ (toLowerChar_not_upper c)

theorem collapseDashes_cons (b : Char) (rest : List Char) :
    ∃ t, collapseDashes (b :: rest) = b :: t := by
  induction rest generalizing b with
  | nil => exact ⟨[], rfl⟩
  | cons c r ih =>
    rw [collapseDashes]
    by_cases h : b = '-' ∧ c = '-'
    · rw [if_pos h]
      obtain ⟨t, ht⟩ := ih c
      exact ⟨t, by rw [ht, h.1, h.2]⟩
    · rw [if_neg h]
      exact ⟨collapseDashes (c :: r), rfl⟩

theorem collapseDashes_noDD (l : List Char) : noDoubleDash (collapseDashes l) = true := by
  induction l with
  | nil => rfl
  | cons a t ih =>
    cases t with
    | nil => rfl
    | cons b rest =>
      rw [collapseDashes]
      by_cases h : a = '-' ∧ b = '-'
      · rw [if_pos h]
        exact ih
      · rw [if_neg h]
        obtain ⟨t', ht'⟩ := collapseDashes_cons b rest
        rw [ht']
        rw [ht'] at ih
        rw [noDoubleDash]
        have hne : (decide (a = '-') && decide (b = '-')) = false := by
          by_cases ha : a = '-'
          · by_cases hb : b = '-'
            · exact absurd ⟨ha, hb⟩ h
            · simp [hb]
          · simp [ha]
        simp [hne, ih]

theorem noDD_collapse_id (l : List Char) (h : noDoubleDash l = true) :
    collapseDashes l = l := by
  induction l with
  | nil => rfl
  | cons a t ih =>
    cases t with
    | nil => rfl
    | cons b rest =>
      rw [noDoubleDash] at h
      simp only [Bool.and_eq_true, Bool.not_eq_true'] at h
      have hne : ¬ (a = '-' ∧ b = '-') := by
        intro hab
        simp [hab.1, hab.2] at h
      rw [collapseDashes, if_neg hne, ih h.2]

theorem collapseDashes_idem (l : List Char) :
    collapseDashes (collapseDashes l) = collapseDashes l :=
  noDD_collapse_id _ (collapseDashes_noDD l)

theorem mem_collapseDashes (l : List Char) (c : Char) (h : c ∈ collapseDashes l) :
    c ∈ l := by
  induction l with
  | nil => simp [collapseDashes] at h
  | cons a t ih =>
    cases t with
    | nil => simpa [collapseDashes] using h
    | cons b rest =>
      rw [collapseDashes] at h
      by_cases hd : a = '-' ∧ b = '-'
      · rw [if_pos hd] at h
        exact List.mem_cons_of_mem _ (ih h)
      · rw [if_neg hd] at h
        rcases List.mem_cons.mp h with h | h
        · exact h ▸ List.mem_cons_self _ _
        · exact List.mem_cons_of_mem _ (ih h)

theorem map_fix (l : List Char) (f : Char → Char) (h : ∀ c ∈ l, f c = c) :
    l.map f = l :=
  (List.map_congr_left h).trans (List.map_id l)

/-- C9: normalizeAnchor is idempotent — normalizing an already
normalized heading changes nothing. -/
theorem claim9_normalizeAnchor_idempotent (header : String) :
    normalizeAnchor (normalizeAnchor header) = normalizeAnchor header := by
  have hchar : ∀ c ∈ collapseDashes (((header.data.map toLowerChar).filter keepChar).map spaceToDash),
      toLowerChar c = c ∧ keepChar c = true ∧ c ≠ ' ' := by
    intro c hc
    have hc' := mem_collapseDashes _ _ hc
    rw [List.mem_map] at hc'
    obtain ⟨b, hb, hbc⟩ := hc'
    rw [List.mem_filter] at hb
    obtain ⟨hbA, hkb⟩ := hb
    rw [List.mem_map] at hbA
    obtain ⟨a, _, hab⟩ := hbA
    by_cases hsp : b = ' '
    · subst hsp
      rw [← hbc]
      refine ⟨?_, ?_, ?_⟩ <;> simp [spaceToDash] <;> decide
    · have hcb : c = b := by
        rw [← hbc]
        simp [spaceToDash, hsp]
      subst hcb
      refine ⟨?_, hkb, hsp⟩
      rw [← hab]
      exact toLowerChar_idem a
  have h1 : (collapseDashes (((header.data.map toLowerChar).filter keepChar).map spaceToDash)).map toLowerChar
      = collapseDashes (((header.data.map toLowerChar).filter keepChar).map spaceToDash) :=
    map_fix _ _ (fun c hc => (hchar c hc).1)
  have h2 : (collapseDashes (((header.data.map toLowerChar).filter keepChar).map spaceToDash)).filter keepChar
      = collapseDashes (((header.data.map toLowerChar).filter keepChar).map spaceToDash) :=
    List.filter_eq_self.mpr (fun c hc => (hchar c hc).2.1)
  have h3 : (collapseDashes (((header.data.map toLowerChar).filter keepChar).map spaceToDash)).map spaceToDash
      = collapseDashes (((header.data.map toLowerChar).filter keepChar).map spaceToDash) :=
    map_fix _ _ (fun c hc => by simp [spaceToDash, (hchar c hc).2.2])
  have hmk : ∀ l : List Char, normalizeAnchor (String.mk l) =
      String.mk (collapseDashes (((l.map toLowerChar).filter keepChar).map spaceToDash)) :=
    fun l => rfl
  have hD : normalizeAnchor header =
      String.mk (collapseDashes (((header.data.map toLowerChar).filter keepChar).map spaceToDash)) :=
    rfl
  rw [hD, hmk, h1, h2, h3, collapseDashes_idem]

/-- C3: evaluating processCodeBlock at the failing input.  With
operator responses r, r, x — run, rerun, then exit at the second
rerun/continue/exit question — the function returns exit=false with no
error (the exit signalled inside the rerun recursion is discarded by
the `if err != nil` propagation), so RunMarkdown goes on to the
remaining sections instead of halting; whereas the claim (and the
spec's "on exit, halt immediately") requires exit=true.  Answering x
before any rerun (responses r, x, and response x alone) does signal
exit. -/
theorem claim3_exit_swallowed_after_rerun :
    (processCodeBlock true "hello\n" none ["```bash", "echo hello", "```"] "" "" ["r", "r", "x"]).exit
        = false
    ∧ (processCodeBlock true "hello\n" none ["```bash", "echo hello", "```"] "" "" ["r", "r", "x"]).err
        = none
    ∧ (processCodeBlock true "hello\n" none ["```bash", "echo hello", "```"] "" "" ["r", "x"]).exit
        = true
    ∧ (processCodeBlock true "hello\n" none ["```bash", "echo hello", "```"] "" "" ["x"]).exit
        = true := by
  refine ⟨?_, ?_, ?_, ?_⟩ <;> decide

/-- C10: a code section of at most two lines (fence delimiters with no
snippet body) is printed verbatim to the sink and processCodeBlock
returns immediately with no error and no exit signal; the response
stream is untouched (the prompt function is never invoked) and the
result does not depend on whether a runner exists for the language or
on what a run would produce (no runner is resolved or invoked). -/
theorem claim10_short_code_block (hasRunner : Bool) (runOut : String) (runErr : Option String)
    (code : List String) (choice out : String) (resps : List String)
    (h : code.length ≤ 2) :
    processCodeBlock hasRunner runOut runErr code choice out resps =
      ⟨out ++ linesStr code, resps, none, false⟩ := by
  unfold processCodeBlock
  show pcbFuel hasRunner runOut runErr code (resps.length + 1 + 1) choice out resps = _
  rw [pcbFuel.eq_def]
  simp [h]

/-- Witness for C10 at a concrete two-line code block. -/
theorem claim10_short_code_block_witness :
    processCodeBlock false "x" (some "e") ["```bash", "```"] "" "pre" ["r"] =
      ⟨"pre" ++ linesStr ["```bash", "```"], ["r"], none, false⟩ :=
  claim10_short_code_block false "x" (some "e") ["```bash", "```"] "" "pre" ["r"] (by decide)

theorem verifyLoop_eq (stream : List String) :
    verifyLoop stream =
      (stream.takeWhile (fun l => !(l == snippetMarker)),
       (stream.dropWhile (fun l => !(l == snippetMarker))).drop 1) := by
  induction stream with
  | nil => rfl
  | cons l rest ih =>
    by_cases h : l = snippetMarker
    · simp [verifyLoop, h]
    · simp [verifyLoop, h, List.takeWhile_cons, List.dropWhile_cons, ih]

theorem statusOfLine_eq (l : String) :
    statusOfLine l =
      if (goFields l).length = 2 ∧ (goFields l).headD "" = exitCodeMarker then
        goAtoi ((goFields l).getD 1 "")
      else none := by
  rw [statusOfLine]
  cases hp : goFields l with
  | nil => simp
  | cons m tl =>
    cases tl with
    | nil => simp
    | cons tok tl2 =>
      cases tl2 with
      | nil =>
        by_cases hm : m = exitCodeMarker
        · simp [hm]
        · simp [hm]
      | cons c tl3 => simp

theorem verifyParse_cases (l : String) :
    (∀ n : Int, statusOfLine l = some n →
      verifyParse l = .ok (if n = 0 then successResult else failureResult n))
    ∧ (statusOfLine l = none → ∃ msg, verifyParse l = .error msg) := by
  rw [verifyParse, statusOfLine_eq]
  by_cases hcond : (goFields l).length = 2 ∧ (goFields l).headD "" = exitCodeMarker
  · rw [if_pos hcond, if_neg (by push_neg; exact hcond)]
    cases ha : goAtoi ((goFields l).getD 1 "") with
    | none =>
      refine ⟨fun n hn => ?_, fun _ => ⟨_, rfl⟩⟩
      cases hn
    | some k =>
      refine ⟨fun n hn => ?_, fun hn => ?_⟩
      · obtain rfl : k = n := by injection hn
        show (if k ≠ 0 then Except.ok (failureResult k) else Except.ok successResult) =
          Except.ok (if k = 0 then successResult else failureResult k)
        by_cases hz : k = 0
        · rw [if_neg (by simp [hz]), if_pos hz]
        · rw [if_pos hz, if_neg hz]
      · cases hn
  · rw [if_neg hcond, if_pos ?_]
    · refine ⟨fun n hn => ?_, fun _ => ⟨_, rfl⟩⟩
      cases hn
    · rcases not_and_or.mp hcond with h | h
      · exact Or.inl h
      · exact Or.inr h

/-- C6: characterization of the verify runner's stream parsing: the
captured output is exactly the lines read before the first marker line
(marker excluded, each line newline-terminated); the line after the
marker must consist of the exit-code marker token and one integer — a
status parsing as n yields a successful (non-error) result, the Success
string for n = 0 and the Failure string embedding n otherwise, while a
missing or malformed status line or a mismatched marker token yields an
error. -/
theorem claim6_verify_run (stream : List String) :
    (verifyRun stream).1 =
      String.join ((stream.takeWhile (fun l => !(l == snippetMarker))).map (fun l => l ++ "\n"))
    ∧ (∀ n : Int, verifyStatusSpec stream = some n →
        (verifyRun stream).2 = .ok (if n = 0 then successResult else failureResult n))
    ∧ (verifyStatusSpec stream = none → ∃ msg, (verifyRun stream).2 = .error msg) := by
  have hloop := verifyLoop_eq stream
  have hcases := verifyParse_cases
      (((stream.dropWhile (fun l => !(l == snippetMarker))).drop 1).headD "")
  rw [verifyStatusSpec]
  rw [verifyRun, hloop]
  exact ⟨rfl, hcases.1, hcases.2⟩

/-- Witness for C6 at a concrete stream: one output line, the marker,
and a zero status line. -/
theorem claim6_verify_run_witness :
    (verifyRun ["hello", snippetMarker, "__EXIT_CODE__ 0"]).1 = "hello\n"
    ∧ (verifyRun ["hello", snippetMarker, "__EXIT_CODE__ 0"]).2 = .ok successResult := by
  have h := claim6_verify_run ["hello", snippetMarker, "__EXIT_CODE__ 0"]
  have h2 := h.2.1 0 (by decide)
  refine ⟨?_, ?_⟩
  · rw [h.1]
    decide
  · rw [h2]
    simp

/-- C7: response resolution of processPrompt for one prompt descriptor
and one operator response: the resolved response substitutes the
default for an empty response exactly when a default exists; with no
declared options the variable is always bound to the resolved response;
with a non-empty option list the binding succeeds exactly when the
resolved response is one of the options, and otherwise a validation
error is returned. -/
theorem claim7_prompt_resolution (pd : Prompt) (response : String) :
    (response = "" → pd.Default ≠ "" → resolveResponse pd response = pd.Default)
    ∧ (pd.Options = [] →
        processPromptLine pd response = .ok (pd.VarName, resolveResponse pd response))
    ∧ (pd.Options ≠ [] →
        (resolveResponse pd response ∈ pd.Options →
          processPromptLine pd response = .ok (pd.VarName, resolveResponse pd response))
        ∧ (resolveResponse pd response ∉ pd.Options →
          ∃ msg, processPromptLine pd response = .error msg)) := by
  refine ⟨?_, ?_, fun h => ⟨?_, ?_⟩⟩
  · intro h1 h2
    rw [resolveResponse, if_pos ⟨h1, h2⟩]
  · intro h
    rw [processPromptLine, resolveResponse]
    rw [if_neg (by simp [h])]
  · intro hin
    rw [processPromptLine, resolveResponse]
    rw [if_neg (by simp only [resolveResponse] at hin; simp [hin])]
  · intro hout
    rw [processPromptLine]
    rw [if_pos ⟨h, by simpa only [resolveResponse] using hout⟩]
    exact ⟨_, rfl⟩

/-- Witness for C7: a prompt with options Alice and Bob and default
Alice binds the empty response to Alice, and rejects Charlie. -/
theorem claim7_prompt_resolution_witness :
    processPromptLine ⟨"name", "What is your name?", ["Alice", "Bob"], "Alice"⟩ "" =
      .ok ("name", "Alice")
    ∧ ∃ msg,
        processPromptLine ⟨"name", "What is your name?", ["Alice", "Bob"], "Alice"⟩ "Charlie" =
          .error msg := by
  constructor
  · have h := ((claim7_prompt_resolution
      ⟨"name", "What is your name?", ["Alice", "Bob"], "Alice"⟩ "").2.2 (by decide)).1 (by decide)
    simpa [resolveResponse] using h
  · exact ((claim7_prompt_resolution
      ⟨"name", "What is your name?", ["Alice", "Bob"], "Alice"⟩ "Charlie").2.2
        (by decide)).2 (by decide)

/-- C8 counterexample: a tags directive whose parentheses contain only
whitespace matches the directive grammar and successfully returns an
empty tag list — so a successful parseTags call can return an empty
list, and a line whose parenthesized content names no tag can
succeed. -/
theorem claim8_counterexample : parseTags "[tags]:# ( )" = .ok [] := rfl

/-- C8 (amended): `[tags]:# ()` is rejected with a format error, and so
is every line that does not decompose as the directive prefix, optional
whitespace, and a parenthesized non-empty closing-paren-free content
ending the line; a successful parse returns the whitespace-split tokens
of that content — which is the empty list exactly when the content is
all whitespace, so success does not guarantee at least one tag. -/
theorem claim8_tags_directive (line : String) (res : List String) :
    parseTags "[tags]:# ()" = .error "invalid tags directive format"
    ∧ (parseTags line = .ok res →
        ∃ w inner : List Char,
          line.data = "[tags]:#".data ++ (w ++ '(' :: (inner ++ [')']))
          ∧ (∀ c ∈ w, isSpaceGo c = true)
          ∧ inner ≠ [] ∧ ')' ∉ inner
          ∧ res = (goFieldsL inner).map String.mk) := by
  refine ⟨rfl, ?_⟩
  intro hok
  rw [parseTags] at hok
  by_cases hpre : line.data.take 8 = "[tags]:#".data
  swap
  · rw [if_neg hpre] at hok
    cases hok
  rw [if_pos hpre] at hok
  cases hm : (line.data.drop 8).dropWhile isSpaceGo with
  | nil => rw [hm] at hok; cases hok
  | cons c r =>
    rw [hm] at hok
    simp only at hok
    by_cases hc : c = '('
    swap
    · rw [if_neg hc] at hok
      cases hok
    rw [if_pos hc] at hok
    by_cases hlast : r.getLast? = some ')'
    swap
    · rw [if_neg hlast] at hok
      cases hok
    rw [if_pos hlast] at hok
    by_cases hinner : ¬ r.dropLast.isEmpty ∧ ')' ∉ r.dropLast
    swap
    · rw [if_neg hinner] at hok
      cases hok
    rw [if_pos hinner] at hok
    have h3 : r.dropLast ++ [')'] = r := List.dropLast_append_getLast? _ hlast
    have hcr : c :: r = '(' :: (r.dropLast ++ [')']) := by
      rw [hc, h3]
    refine ⟨(line.data.drop 8).takeWhile isSpaceGo, r.dropLast, ?_, ?_, ?_, hinner.2, ?_⟩
    · calc line.data
          = line.data.take 8 ++ line.data.drop 8 := (List.take_append_drop 8 line.data).symm
        _ = "[tags]:#".data ++ line.data.drop 8 := by rw [hpre]
        _ = "[tags]:#".data ++
              ((line.data.drop 8).takeWhile isSpaceGo ++ (line.data.drop 8).dropWhile isSpaceGo) := by
            rw [List.takeWhile_append_dropWhile]
        _ = "[tags]:#".data ++ ((line.data.drop 8).takeWhile isSpaceGo ++ (c :: r)) := by
            rw [hm]
        _ = "[tags]:#".data ++
              ((line.data.drop 8).takeWhile isSpaceGo ++ ('(' :: (r.dropLast ++ [')']))) := by
            rw [hcr]
    · intro x hx
      exact List.mem_takeWhile_imp hx
    · intro hemp
      rw [hemp] at hinner
      exact hinner.1 rfl
    · cases hok
      rfl

/-- Witness for C8 (amended) at a concrete well-formed directive. -/
theorem claim8_tags_directive_witness :
    parseTags "[tags]:# ()" = .error "invalid tags directive format"
    ∧ ∃ w inner : List Char,
        "[tags]:# (foo bar)".data = "[tags]:#".data ++ (w ++ '(' :: (inner ++ [')']))
        ∧ (∀ c ∈ w, isSpaceGo c = true)
        ∧ inner ≠ [] ∧ ')' ∉ inner
        ∧ ["foo", "bar"] = (goFieldsL inner).map String.mk := by
  have h := claim8_tags_directive "[tags]:# (foo bar)" ["foo", "bar"]
  exact ⟨h.1, h.2 rfl⟩

end ReadmeRunner
